import Mathlib

/-!
Verification of the `xerr` step-runner package (Go).

The package provides a step runner with fail-fast semantics over a shared
error slot (`*error` in Go), observer middleware, a bound-runner
constructor, and a logging observer that reads a trace identifier from the
execution context.

Embedding choices:
* A Go `error` value is `Option ε` (`none` = nil).  `ε` stays abstract so
  that identity preservation of stored errors is visible in the statements.
* The error slot `*error` is passed as an explicit `Option ε` value and the
  new slot value is returned.
* Observers (middleware) are opaque identifiers drawn from a type `μ`; a
  call to `run` returns, next to the new slot value, the trace of primitive
  actions it performed, in order: the operation call, each observer call
  with the arguments delivered to it, and the slot write.  A Go middleware
  receives its `err` argument by value, so its body cannot reach the
  caller's slot through that parameter; the trace records exactly what run
  hands to each observer.
* Contexts are association lists from string keys to values (most recently
  added first), mirroring `context.WithValue` / `ctx.Value` lookup.
-/

namespace Xerr

/-- A value stored in a Go `context.Context` (`interface{}`): either a
string or some non-string value, mirroring the type switch in
`getTraceID`. -/
inductive GoVal : Type where
  | str : String → GoVal
  | int : Int → GoVal
  deriving DecidableEq, Repr

/-- A Go context: key/value pairs, most recently added first. -/
abbrev Ctx : Type := List (String × GoVal)

/-- `ctx.Value(key)`: the most recently added value for `key`, if any. -/
def ctxValue : Ctx → String → Option GoVal
  | [], _ => none
  | (k, v) :: rest, key => if k = key then some v else ctxValue rest key

/-- `getTraceID` from the source: the string under `"trace_id"`, or the
literal `"unknown"` when the key is absent or its value is not a string. -/
def getTraceID (ctx : Ctx) : String :=
  match ctxValue ctx "trace_id" with
  | some (GoVal.str id) => id
  | _ => "unknown"

/-- Helper for statements: whether an optional context value is a string. -/
def isStrVal : Option GoVal → Bool
  | some (GoVal.str _) => true
  | _ => false

/-- `LoggerMiddleware` from `part_000` (signature `(ctx, err, tip)`),
modelled as the line it prints:
success `✅[trace] tip`, failure `❌[trace] tip: err`. -/
def LoggerMiddleware (ctx : Ctx) (err : Option String) (tip : String) : String :=
  match err with
  | none => "✅[" ++ getTraceID ctx ++ "] " ++ tip ++ "\n"
  | some msg => "❌[" ++ getTraceID ctx ++ "] " ++ tip ++ ": " ++ msg ++ "\n"

/-- One primitive action of the `part_000` runner `run`, in the order it
performs them.  `midCall` records the arguments `(ctx, e, tip)` delivered
to one middleware of the list. -/
inductive Event (ε μ : Type) where
  | opCall (tip : String) (ctx : Ctx) (result : Option ε)
  | midCall (mid : μ) (ctx : Ctx) (e : Option ε) (tip : String)
  | slotWrite (e : ε)
  deriving DecidableEq

/-- `run` from `part_000`: short-circuit when the slot already holds an
error; otherwise call the operation, hand `(ctx, e, tip)` to every
middleware in order, and finally store a non-nil result into the slot
unmodified.  Returns the new slot value and the trace of actions. -/
def run {ε μ : Type} (ctx : Ctx) (err : Option ε) (tip : String)
    (fn : Ctx → Option ε) (mids : List μ) : Option ε × List (Event ε μ) :=
  match err with
  | some e0 => (some e0, [])
  | none =>
    let e := fn ctx
    let midEvents := mids.map (fun mid => Event.midCall mid ctx e tip)
    match e with
    | some e1 => (some e1, Event.opCall tip ctx e :: midEvents ++ [Event.slotWrite e1])
    | none => (none, Event.opCall tip ctx e :: midEvents)

/-- One primitive action of the internal runner `Run`
(`src/internal/xerr/xerr.go`), whose middleware signature is
`(ctx, ok, tip, err)`. -/
inductive IEvent (ε μ : Type) where
  | opCall (tip : String) (ctx : Ctx) (result : Option ε)
  | midCall (mid : μ) (ctx : Ctx) (ok : Bool) (tip : String) (e : Option ε)
  | slotWrite (e : ε)
  deriving DecidableEq

/-- `Run` from `src/internal/xerr/xerr.go`: identical control flow to
`run`, but each middleware receives `(ctx, e == nil, tip, e)`. -/
def RunI {ε μ : Type} (ctx : Ctx) (err : Option ε) (tip : String)
    (fn : Ctx → Option ε) (mids : List μ) : Option ε × List (IEvent ε μ) :=
  match err with
  | some e0 => (some e0, [])
  | none =>
    let e := fn ctx
    let midEvents := mids.map (fun mid => IEvent.midCall mid ctx e.isNone tip e)
    match e with
    | some e1 => (some e1, IEvent.opCall tip ctx e :: midEvents ++ [IEvent.slotWrite e1])
    | none => (none, IEvent.opCall tip ctx e :: midEvents)

/-- `NewGlobalError` from `part_000`: binds the context and middleware list
and returns a runner that forwards to `run`. -/
def NewGlobalError {ε μ : Type} (ctx : Ctx) (mids : List μ) :
    Option ε → String → (Ctx → Option ε) → Option ε × List (Event ε μ) :=
  fun err tip fn => run ctx err tip fn mids

/-- `With` from `src/internal/xerr/xerr.go`: binds the middleware list and
returns a runner that forwards to `Run`. -/
def With {ε μ : Type} (mids : List μ) :
    Ctx → Option ε → String → (Ctx → Option ε) → Option ε × List (IEvent ε μ) :=
  fun ctx err tip fn => RunI ctx err tip fn mids

/-- One step of a sequential workflow: a label and an operation. -/
structure Step (ε : Type) where
  tip : String
  fn : Ctx → Option ε

/-- A sequence of `run` calls sharing one error slot, as produced by the
`NewGlobalError` usage pattern; traces are concatenated in call order. -/
def runSeq {ε μ : Type} (ctx : Ctx) (mids : List μ) :
    Option ε → List (Step ε) → Option ε × List (Event ε μ)
  | err, [] => (err, [])
  | err, s :: rest =>
    let r1 := run ctx err s.tip s.fn mids
    let r2 := runSeq ctx mids r1.1 rest
    (r2.1, r1.2 ++ r2.2)

/-- The slot value after replaying a trace from an initial slot value:
only `slotWrite` actions change the slot. -/
def slotAfter {ε μ : Type} (init : Option ε) (evs : List (Event ε μ)) : Option ε :=
  evs.foldl (fun s ev => match ev with
    | Event.slotWrite e => some e
    | _ => s) init

/-- The operation invocations recorded in a trace: label and result, in
order. -/
def opEvents {ε μ : Type} (evs : List (Event ε μ)) : List (String × Option ε) :=
  evs.filterMap (fun ev => match ev with
    | Event.opCall tip _ r => some (tip, r)
    | _ => none)

/-- The arguments delivered to middleware, in invocation order. -/
def midCallArgs {ε μ : Type} (evs : List (Event ε μ)) :
    List (Ctx × Option ε × String) :=
  evs.filterMap (fun ev => match ev with
    | Event.midCall _ c e t => some (c, e, t)
    | _ => none)

/-- The translation between the two runners' traces: an `ok` flag equal to
`e == nil` is added to each middleware call. -/
def evToI {ε μ : Type} : Event ε μ → IEvent ε μ
  | Event.opCall tip c r => IEvent.opCall tip c r
  | Event.midCall m c e tip => IEvent.midCall m c e.isNone tip e
  | Event.slotWrite e => IEvent.slotWrite e

/-- `strings.Contains`: `needle` occurs contiguously inside `hay`. -/
def strContains (hay needle : String) : Prop :=
  needle.toList <:+: hay.toList

instance (hay needle : String) : Decidable (strContains hay needle) := by
  unfold strContains
  infer_instance

/-! ### Helper lemmas -/

theorem filterMap_const_some_aux {α β : Type} (l : List α) (b : β) :
    l.filterMap (fun _ => some b) = l.map (fun _ => b) := by
  induction l with
  | nil => rfl
  | cons a t ih => simp [ih]

theorem filterMap_const_none_aux {α β : Type} (l : List α) :
    l.filterMap (fun _ => (none : Option β)) = [] := by
  induction l with
  | nil => rfl
  | cons a t ih => simp [ih]

theorem runSeq_some_aux {ε μ : Type} (ctx : Ctx) (mids : List μ) (e0 : ε) :
    ∀ steps : List (Step ε), runSeq ctx mids (some e0) steps = (some e0, [])
  | [] => rfl
  | s :: rest => by
    simp [runSeq, run, runSeq_some_aux ctx mids e0 rest]

theorem run_none_trace_aux {ε μ : Type} (ctx : Ctx) (tip : String)
    (fn : Ctx → Option ε) (mids : List μ) :
    (run ctx (none : Option ε) tip fn mids).2 =
      (Event.opCall tip ctx (fn ctx) ::
        mids.map (fun m => Event.midCall m ctx (fn ctx) tip)) ++
        (match fn ctx with
          | some e1 => [Event.slotWrite e1]
          | none => ([] : List (Event ε μ))) := by
  cases h : fn ctx <;> simp [run, h]

theorem midCallArgs_map_aux {ε μ : Type} (ctx : Ctx) (e : Option ε) (tip : String) :
    ∀ mids : List μ,
      midCallArgs (mids.map (fun mid => Event.midCall mid ctx e tip)) =
        mids.map (fun _ => (ctx, e, tip))
  | [] => rfl
  | a :: t => by
    show (ctx, e, tip) :: midCallArgs (t.map fun mid => Event.midCall mid ctx e tip) =
      (ctx, e, tip) :: t.map (fun _ => (ctx, e, tip))
    rw [midCallArgs_map_aux ctx e tip t]

theorem midCallArgs_append_aux {ε μ : Type} (l1 l2 : List (Event ε μ)) :
    midCallArgs (l1 ++ l2) = midCallArgs l1 ++ midCallArgs l2 :=
  List.filterMap_append l1 l2 _

theorem midCallArgs_run_aux {ε μ : Type} (ctx : Ctx) (tip : String)
    (fn : Ctx → Option ε) (mids : List μ) :
    midCallArgs (run ctx (none : Option ε) tip fn mids).2 =
      mids.map (fun _ => (ctx, fn ctx, tip)) := by
  cases h : fn ctx with
  | none =>
    have htr : (run ctx (none : Option ε) tip fn mids).2 =
        Event.opCall tip ctx none ::
          mids.map (fun m => Event.midCall m ctx none tip) := by
      simp [run, h]
    rw [htr]
    show midCallArgs (mids.map fun m => Event.midCall m ctx none tip) =
      mids.map (fun _ => (ctx, (none : Option ε), tip))
    rw [midCallArgs_map_aux]
  | some e1 =>
    have htr : (run ctx (none : Option ε) tip fn mids).2 =
        Event.opCall tip ctx (some e1) ::
          (mids.map (fun m => Event.midCall m ctx (some e1) tip) ++
            [Event.slotWrite e1]) := by
      simp [run, h]
    rw [htr]
    show midCallArgs
        (mids.map (fun m => Event.midCall m ctx (some e1) tip) ++
          [Event.slotWrite e1]) =
      mids.map (fun _ => (ctx, some e1, tip))
    rw [midCallArgs_append_aux, midCallArgs_map_aux]
    simp [midCallArgs]

theorem run_none_fst_aux {ε μ : Type} (ctx : Ctx) (tip : String)
    (fn : Ctx → Option ε) (mids : List μ) :
    (run ctx (none : Option ε) tip fn mids).1 = fn ctx := by
  cases h : fn ctx <;> simp [run, h]

theorem opEvents_append_aux {ε μ : Type} (l1 l2 : List (Event ε μ)) :
    opEvents (l1 ++ l2) = opEvents l1 ++ opEvents l2 :=
  List.filterMap_append l1 l2 _

theorem opEvents_mid_map_aux {ε μ : Type} (ctx : Ctx) (e : Option ε) (tip : String) :
    ∀ mids : List μ,
      opEvents (mids.map (fun mid => Event.midCall mid ctx e tip)) =
        ([] : List (String × Option ε))
  | [] => rfl
  | a :: t => by
    show opEvents (t.map fun mid => Event.midCall mid ctx e tip) = []
    exact opEvents_mid_map_aux ctx e tip t

theorem opEvents_run_aux {ε μ : Type} (ctx : Ctx) (tip : String)
    (fn : Ctx → Option ε) (mids : List μ) :
    opEvents (run ctx (none : Option ε) tip fn mids).2 = [(tip, fn ctx)] := by
  cases h : fn ctx with
  | none =>
    have htr : (run ctx (none : Option ε) tip fn mids).2 =
        Event.opCall tip ctx none ::
          mids.map (fun m => Event.midCall m ctx none tip) := by
      simp [run, h]
    rw [htr]
    show (tip, (none : Option ε)) ::
        opEvents (mids.map fun m => Event.midCall m ctx none tip) =
      [(tip, (none : Option ε))]
    rw [opEvents_mid_map_aux]
  | some e1 =>
    have htr : (run ctx (none : Option ε) tip fn mids).2 =
        Event.opCall tip ctx (some e1) ::
          (mids.map (fun m => Event.midCall m ctx (some e1) tip) ++
            [Event.slotWrite e1]) := by
      simp [run, h]
    rw [htr]
    show (tip, some e1) ::
        opEvents (mids.map (fun m => Event.midCall m ctx (some e1) tip) ++
          [Event.slotWrite e1]) =
      [(tip, some e1)]
    rw [opEvents_append_aux, opEvents_mid_map_aux]
    simp [opEvents]

theorem slotAfter_no_write_aux {ε μ : Type} (evs : List (Event ε μ))
    (h : ∀ ev ∈ evs, ∀ e : ε, ev ≠ Event.slotWrite e) :
    ∀ init : Option ε, slotAfter init evs = init := by
  induction evs with
  | nil => intro init; rfl
  | cons a t ih =>
    intro init
    have ha := h a (List.mem_cons_self a t)
    have ht : ∀ ev ∈ t, ∀ e : ε, ev ≠ Event.slotWrite e :=
      fun ev hev => h ev (List.mem_cons_of_mem a hev)
    cases a with
    | opCall tip c r => exact ih ht init
    | midCall m c e tip => exact ih ht init
    | slotWrite e => exact absurd rfl (ha e)

/-! ### Claim theorems -/

/-- C1: a call to the step runner whose error slot already holds an error
returns immediately: the operation is not invoked, no observer runs (the
trace is empty), and the slot still holds the same error value; this holds
for both the `part_000` runner `run` and the internal runner `Run`. -/
theorem run_short_circuit {ε μ : Type} (ctx : Ctx) (e0 : ε) (tip : String)
    (fn : Ctx → Option ε) (mids : List μ) :
    run ctx (some e0) tip fn mids = (some e0, []) ∧
    RunI ctx (some e0) tip fn mids = (some e0, []) :=
  ⟨rfl, rfl⟩

/-- C2: on an empty slot the runner stores the operation's result exactly:
the final slot value is identically `fn ctx` (the identical error when the
operation fails, still empty on success, no wrapping or annotation), and
when the label does not occur in the operation's error text it does not
occur in the stored error's text either. -/
theorem run_stores_error_unmodified {ε μ : Type} (ctx : Ctx) (tip : String)
    (fn : Ctx → Option ε) (mids : List μ)
    (fnS : Ctx → Option String) (midsS : List String) :
    (run ctx none tip fn mids).1 = fn ctx ∧
    (∀ s, fnS ctx = some s → ¬ strContains s tip →
      ∀ t, (run ctx none tip fnS midsS).1 = some t → ¬ strContains t tip) := by
  constructor
  · cases h : fn ctx <;> simp [run, h]
  · intro s hs hn t ht
    have h1 : (run ctx none tip fnS midsS).1 = fnS ctx := by
      cases h : fnS ctx <;> simp [run, h]
    rw [h1, hs] at ht
    obtain rfl : s = t := Option.some.inj ht
    exact hn

/-- C2 witness: a failing operation on an empty slot with one observer
stores the very error string, and the label is not contained in it. -/
theorem run_stores_error_unmodified_witness :
    (run [] (none : Option String) "wrap tip"
        (fun _ => some "original error") ["m"]).1 = some "original error" ∧
    ¬ strContains "original error" "wrap tip" := by
  have h := run_stores_error_unmodified ([] : Ctx) "wrap tip"
    (fun _ => some "original error") (["m"] : List String)
    (fun _ => some "original error") ["m"]
  refine ⟨h.1, ?_⟩
  exact h.2 "original error" rfl (by decide) "original error" h.1

/-- C6: the error slot is monotonic and one-way: a whole sequence of runner
calls starting from a non-empty slot leaves it untouched and performs no
action at all, and a single call either leaves the slot exactly as it was
or, only when it was empty, sets it to the operation's result. -/
theorem slot_monotonic {ε μ : Type} (ctx : Ctx) (mids : List μ) :
    (∀ (e0 : ε) (steps : List (Step ε)),
      runSeq ctx mids (some e0) steps = (some e0, [])) ∧
    (∀ (err : Option ε) (tip : String) (fn : Ctx → Option ε),
      (run ctx err tip fn mids).1 = err ∨
        (err = none ∧ (run ctx err tip fn mids).1 = fn ctx)) := by
  constructor
  · intro e0 steps
    exact runSeq_some_aux ctx mids e0 steps
  · intro err tip fn
    cases err with
    | some e0 => exact Or.inl rfl
    | none =>
      refine Or.inr ⟨rfl, ?_⟩
      cases h : fn ctx <;> simp [run, h]

/-- C7: the bound runners are pure partial applications: invoking the
runner returned by `NewGlobalError` (resp. `With`) on a slot, label and
operation is the very same result as calling `run` (resp. `Run`) directly
with the captured context and observer list. -/
theorem bound_runner_equiv {ε μ : Type} (ctx : Ctx) (mids : List μ)
    (err : Option ε) (tip : String) (fn : Ctx → Option ε) :
    NewGlobalError ctx mids err tip fn = run ctx err tip fn mids ∧
    With mids ctx err tip fn = RunI ctx err tip fn mids :=
  ⟨rfl, rfl⟩

/-- C8: the two historical runner APIs are one contract: the internal `Run`
produces exactly the trace of `run` translated observer call by observer
call, the added `ok` flag being `(operation error).isNone`, with the same
final slot value, the same short-circuit decision and the same order. -/
theorem run_refines_internal {ε μ : Type} (ctx : Ctx) (err : Option ε)
    (tip : String) (fn : Ctx → Option ε) (mids : List μ) :
    RunI ctx err tip fn mids =
      ((run ctx err tip fn mids).1, (run ctx err tip fn mids).2.map evToI) := by
  cases err with
  | some e0 => rfl
  | none =>
    cases h : fn ctx <;>
      simp [run, RunI, h, evToI, List.map_map, Function.comp]

/-- C10: the step runner is total and signals no error of its own: for
every input (the slot being modelled as a value, hence valid) it returns a
value, and the resulting slot only relays either the previous slot content
or the operation's outcome; likewise for the internal `Run`. -/
theorem run_total_relay {ε μ : Type} (ctx : Ctx) (err : Option ε)
    (tip : String) (fn : Ctx → Option ε) (mids : List μ) :
    ((run ctx err tip fn mids).1 = err ∨ (run ctx err tip fn mids).1 = fn ctx) ∧
    ((RunI ctx err tip fn mids).1 = err ∨ (RunI ctx err tip fn mids).1 = fn ctx) := by
  cases err <;> cases h : fn ctx <;> simp [run, RunI, h]

/-- C3: in a sequence of runner calls sharing one slot that starts empty,
where step `k` (zero-based) is the first whose operation fails, returning
error `E`: the final slot value is exactly `E`, and the operation
invocations recorded in the trace are precisely steps `0..k`, each once, in
order, with their results — steps after `k` are never invoked. -/
theorem runSeq_first_error {ε μ : Type} (ctx : Ctx) (mids : List μ)
    (steps : List (Step ε)) (k : Nat) (E : ε)
    (hok : ∀ s ∈ steps.take k, s.fn ctx = none)
    (hk : k < steps.length)
    (hfail : (steps.get ⟨k, hk⟩).fn ctx = some E) :
    (runSeq ctx mids none steps).1 = some E ∧
    opEvents (runSeq ctx mids none steps).2 =
      (steps.take (k + 1)).map (fun s => (s.tip, s.fn ctx)) := by
  induction steps generalizing k with
  | nil => exact absurd hk (Nat.not_lt_zero k)
  | cons s rest ih =>
    cases k with
    | zero =>
      have hs : s.fn ctx = some E := hfail
      have hr1 : (run ctx (none : Option ε) s.tip s.fn mids).1 = some E := by
        rw [run_none_fst_aux, hs]
      constructor
      · simp [runSeq, hr1, runSeq_some_aux]
      · simp [runSeq, hr1, runSeq_some_aux, opEvents_append_aux,
          opEvents_run_aux, hs]
    | succ k =>
      have hs : s.fn ctx = none := hok s (by simp)
      have hok2 : ∀ x ∈ rest.take k, x.fn ctx = none := by
        intro x hx
        refine hok x ?_
        simp only [List.take_succ_cons, List.mem_cons]
        exact Or.inr hx
      have hk2 : k < rest.length := Nat.lt_of_succ_lt_succ hk
      have hfail2 : (rest.get ⟨k, hk2⟩).fn ctx = some E := hfail
      obtain ⟨ih1, ih2⟩ := ih k hok2 hk2 hfail2
      have hr1 : (run ctx (none : Option ε) s.tip s.fn mids).1 = none := by
        rw [run_none_fst_aux, hs]
      constructor
      · simp [runSeq, hr1, ih1]
      · simp [runSeq, hr1, ih2, opEvents_append_aux, opEvents_run_aux, hs,
          List.take_succ_cons]

/-- C3 witness: the spec scenario — validate and fetch succeed, process
fails with `"processing failed"`, save would succeed — run with one
observer through a shared slot: the final slot is the processing error and
exactly the first three operations are recorded as invoked. -/
theorem runSeq_first_error_witness :
    (runSeq [("trace_id", GoVal.str "request-123")] ["logger"] none
      ([⟨"validate", fun _ => none⟩, ⟨"fetch", fun _ => none⟩,
        ⟨"process", fun _ => some "processing failed"⟩,
        ⟨"save", fun _ => none⟩] : List (Step String))).1 =
      some "processing failed" ∧
    opEvents (runSeq [("trace_id", GoVal.str "request-123")] ["logger"] none
      ([⟨"validate", fun _ => none⟩, ⟨"fetch", fun _ => none⟩,
        ⟨"process", fun _ => some "processing failed"⟩,
        ⟨"save", fun _ => none⟩] : List (Step String))).2 =
      (([⟨"validate", fun _ => none⟩, ⟨"fetch", fun _ => none⟩,
        ⟨"process", fun _ => some "processing failed"⟩,
        ⟨"save", fun _ => none⟩] : List (Step String)).take 3).map
        (fun s => (s.tip, s.fn [("trace_id", GoVal.str "request-123")])) :=
  runSeq_first_error [("trace_id", GoVal.str "request-123")] ["logger"]
    ([⟨"validate", fun _ => none⟩, ⟨"fetch", fun _ => none⟩,
      ⟨"process", fun _ => some "processing failed"⟩,
      ⟨"save", fun _ => none⟩] : List (Step String)) 2 "processing failed"
    (by intro x hx; fin_cases hx <;> rfl) (by decide) rfl

/-- C4: in a non-short-circuited call the trace is exactly: the operation
call first, then one observer call per supplied observer, in list order,
each receiving the context, the operation's result and the label, and the
slot write (if the operation failed) strictly last; every prefix of the
trace that ends at or before the last observer call leaves the slot empty,
so the slot still reads empty while any observer runs; short-circuited
calls produce no action at all.  All of this holds for every observer
list, including the empty one. -/
theorem run_execution_order {ε μ : Type} (ctx : Ctx) (tip : String)
    (fn : Ctx → Option ε) (mids : List μ) :
    (run ctx (none : Option ε) tip fn mids).2 =
      Event.opCall tip ctx (fn ctx) ::
        mids.map (fun m => Event.midCall m ctx (fn ctx) tip) ++
        (match fn ctx with
          | some e1 => [Event.slotWrite e1]
          | none => ([] : List (Event ε μ))) ∧
    (∀ j, j ≤ mids.length + 1 →
      slotAfter none ((run ctx (none : Option ε) tip fn mids).2.take j) = none) ∧
    (∀ e0 : ε, (run ctx (some e0) tip fn mids).2 = []) := by
  have htr := run_none_trace_aux ctx tip fn mids
  refine ⟨htr, ?_, fun e0 => rfl⟩
  intro j hj
  rw [htr, List.take_append_of_le_length (by simpa using hj)]
  apply slotAfter_no_write_aux
  intro ev hev e
  have hev2 := List.mem_of_mem_take hev
  rcases List.mem_cons.mp hev2 with h1 | h2
  · subst h1; simp
  · obtain ⟨m, hm, rfl⟩ := List.mem_map.mp h2
    simp

/-- C4 witness: with two observers and a failing operation, the slot is
still empty after the prefix covering the operation call and both observer
calls, and a call short-circuited by a prior error performs no action. -/
theorem run_execution_order_witness :
    slotAfter none ((run [("trace_id", GoVal.str "req-123")]
        (none : Option String) "step" (fun _ => some "boom")
        ["m1", "m2"]).2.take 3) = none ∧
    (run [("trace_id", GoVal.str "req-123")] (some "prior") "step"
        (fun _ => some "boom") ["m1", "m2"]).2 = [] := by
  have h := run_execution_order [("trace_id", GoVal.str "req-123")] "step"
    (fun _ => some "boom") ["m1", "m2"]
  exact ⟨h.2.1 3 (by decide), h.2.2 "prior"⟩

/-- C5: observers are powerless over the slot: the final slot value is the
same for any two observer lists (even over different observer types), and
in a non-short-circuited call every observer receives exactly the context,
the operation's original result and the label — so nothing an observer does
with the error parameter it receives can change the stored value or what
any other observer receives. -/
theorem observers_cannot_alter_slot {ε μ ν : Type} (ctx : Ctx) (err : Option ε)
    (tip : String) (fn : Ctx → Option ε) (mids1 : List μ) (mids2 : List ν) :
    (run ctx err tip fn mids1).1 = (run ctx err tip fn mids2).1 ∧
    midCallArgs (run ctx none tip fn mids1).2 =
      mids1.map (fun _ => (ctx, fn ctx, tip)) := by
  constructor
  · cases err <;> cases h : fn ctx <;> simp [run, h]
  · exact midCallArgs_run_aux ctx tip fn mids1

/-- C9: `getTraceID` returns the string stored under `"trace_id"` when it
is present with a string value, and the literal `"unknown"` when the key is
absent or not a string; in the latter case the logging observer's output
lines use `"unknown"` in place of a trace identifier. -/
theorem getTraceID_spec (ctx : Ctx) (tip : String) (msg : String) :
    (∀ s, ctxValue ctx "trace_id" = some (GoVal.str s) → getTraceID ctx = s) ∧
    (isStrVal (ctxValue ctx "trace_id") = false →
      getTraceID ctx = "unknown" ∧
      LoggerMiddleware ctx none tip = "✅[unknown] " ++ tip ++ "\n" ∧
      LoggerMiddleware ctx (some msg) tip =
        "❌[unknown] " ++ tip ++ ": " ++ msg ++ "\n") := by
  constructor
  · intro s hs
    simp [getTraceID, hs]
  · intro h
    have hu : getTraceID ctx = "unknown" := by
      unfold getTraceID
      cases hv : ctxValue ctx "trace_id" with
      | none => rfl
      | some v =>
        cases v with
        | str s =>
          rw [hv] at h
          simp [isStrVal] at h
        | int n => rfl
    refine ⟨hu, ?_, ?_⟩ <;> simp [LoggerMiddleware, hu]

/-- C9 witness: a context holding a string trace id yields that id; one
holding a non-string value under the key, and one lacking the key, yield
`"unknown"`, and the logger then prints `"unknown"` as the identifier. -/
theorem getTraceID_spec_witness :
    getTraceID [("trace_id", GoVal.str "abc-123")] = "abc-123" ∧
    getTraceID [("trace_id", GoVal.int 123)] = "unknown" ∧
    getTraceID [] = "unknown" ∧
    LoggerMiddleware [] none "op" = "✅[unknown] " ++ "op" ++ "\n" ∧
    LoggerMiddleware [("trace_id", GoVal.int 123)] (some "boom") "op" =
      "❌[unknown] " ++ "op" ++ ": " ++ "boom" ++ "\n" := by
  have h1 := getTraceID_spec [("trace_id", GoVal.str "abc-123")] "op" "boom"
  have h2 := getTraceID_spec [("trace_id", GoVal.int 123)] "op" "boom"
  have h3 := getTraceID_spec ([] : Ctx) "op" "boom"
  exact ⟨h1.1 "abc-123" (by decide), (h2.2 (by decide)).1, (h3.2 rfl).1,
    (h3.2 rfl).2.1, (h2.2 (by decide)).2.2⟩

end Xerr
